import Mathlib

/-!
Verification of the hh.ru vacancy-ingestion program (src/main.py, src/hh_api.py,
src/db_utils.py, src/db_manager.py) against its natural-language specification.

The embedding translates the Python source and the behaviour of its two external
capabilities (the requests HTTP client and the PostgreSQL store reached through
psycopg2) into executable Lean definitions:

* Python JSON-like values become the inductive type PyVal; dict access
  (dict.get, the `in` operator) becomes lookup in an association list.
* The per-record INSERT ... ON CONFLICT ... DO NOTHING statements become pure
  state transformers over lists of rows.  PostgreSQL transaction semantics are
  modelled faithfully: a server-side error (NOT NULL violation, foreign-key
  violation, type-coercion failure) aborts the open transaction, every later
  statement on the same connection then fails immediately, and the final
  commit of an aborted transaction performs a rollback.  Errors raised on the
  Python side before anything reaches the server (AttributeError on a non-dict,
  a psycopg2 adaptation failure) do not touch the transaction.
* The retry loop of get_vacancies_with_retry is driven by an environment
  function giving the outcome of each attempt; sleeps are recorded in order.
* The SQL of the reporting queries in db_manager.py is translated query by
  query, including SQL NULL propagation in arithmetic, NULL-ignoring AVG,
  PostgreSQL integer division (truncation toward zero) for
  (salary_from + salary_to) / 2 on INT columns, numeric ROUND (half away from
  zero), and LIKE pattern matching.  VARCHAR length limits and the LIKE escape
  character are not modelled; no claim exercises them.
-/

/-- A Python value as it occurs in the JSON records handled by the program. -/
inductive PyVal where
  | pnone
  | pint (n : Int)
  | pstr (s : String)
  | pdict (fields : List (String × PyVal))
  | plist (elems : List PyVal)

/-- A Python dict with string keys, as an association list. -/
abbrev PyDict := List (String × PyVal)

/-- Lookup of a key in a dict (Python d[k] / k in d). -/
def findVal (d : PyDict) (key : String) : Option PyVal :=
  (d.find? (fun p => p.1 == key)).map (fun p => p.2)

/-- Python `key in d`. -/
def hasKey (d : PyDict) (key : String) : Bool := (findVal d key).isSome

/-- Python d.get(key, default): the stored value when the key is present
(even when that value is None), otherwise the default. -/
def getD (d : PyDict) (key : String) (default : PyVal) : PyVal :=
  match findVal d key with
  | some v => v
  | Option.none => default

/-- main.validate_data: a vacancy is valid when the keys "id", "name" and
"employer" are all present; only presence is checked, not the values. -/
def validate_data (vacancy : PyDict) : Bool :=
  ["id", "name", "employer"].all (fun field => hasKey vacancy field)

/-! ## Retrying fetcher (main.get_vacancies_with_retry, hh_api.Hh_Api.get_vacancies) -/

/-- Outcome of one run of main.get_vacancies_with_retry: the value returned to
the caller, the number of calls made to api.get_vacancies, and the sleep
durations (in seconds) in the order they were performed. -/
structure RetryResult where
  result : PyVal
  attempts : Nat
  sleeps : List Nat

/-- The `for attempt in range(retries + 1)` loop of get_vacancies_with_retry.
`call attempt` is the outcome of the attempt-th call to api.get_vacancies:
some v when it returns v, and Lean's Option.none when it raises an exception.
On an exception the loop sleeps 2 ^ attempt seconds when attempt < retries and
goes on; when the loop exhausts all retries + 1 indices it falls through to
`return []`. -/
def retryGo (call : Nat → Option PyVal) (retries : Nat) :
    List Nat → List Nat → RetryResult
  | [], sleeps => ⟨PyVal.plist [], retries + 1, sleeps⟩
  | attempt :: rest, sleeps =>
    match call attempt with
    | some v => ⟨v, attempt + 1, sleeps⟩
    | Option.none =>
      if attempt < retries then retryGo call retries rest (sleeps ++ [2 ^ attempt])
      else retryGo call retries rest sleeps

/-- main.get_vacancies_with_retry(api, employer_id, retries = 3). -/
def get_vacancies_with_retry (call : Nat → Option PyVal) (retries : Nat) :
    RetryResult :=
  retryGo call retries (List.range (retries + 1)) []

/-- What one HTTP round trip of requests.get can produce for the fetcher:
either a raised exception (network error), or a response with a status code
and a parsed JSON body. -/
inductive FetchAttempt where
  | raise
  | response (status : Nat) (body : PyDict)

/-- Hh_Api.get_vacancies applied to one HTTP response: the body's "items"
array when the status code is 200, and an empty list otherwise.  A non-success
status does not raise. -/
def Hh_Api.get_vacancies (status : Nat) (body : PyDict) : PyVal :=
  if status == 200 then getD body "items" (PyVal.plist []) else PyVal.plist []

/-- One attempt of the fetcher as seen by the retry loop, for an environment
assigning an HTTP outcome to each attempt index: an exception propagates
(Option.none), a response is mapped through Hh_Api.get_vacancies. -/
def apiFetch (env : Nat → FetchAttempt) (attempt : Nat) : Option PyVal :=
  match env attempt with
  | FetchAttempt.raise => Option.none
  | FetchAttempt.response status body => some (Hh_Api.get_vacancies status body)

/-! ## The store (db_utils.create_tables schema, psycopg2 connection) -/

/-- A row of the employers table: employer_id INT UNIQUE NOT NULL,
name VARCHAR NOT NULL, url VARCHAR. -/
structure EmployerRow where
  employer_id : Int
  name : String
  url : Option String
deriving DecidableEq, Repr

/-- A row of the vacancies table: vacancy_id INT UNIQUE NOT NULL,
title VARCHAR NOT NULL, salary_from INT, salary_to INT, currency VARCHAR,
employer_id INT REFERENCES employers(employer_id), url VARCHAR. -/
structure VacancyRow where
  vacancy_id : Int
  title : String
  salary_from : Option Int
  salary_to : Option Int
  currency : Option String
  employer_id : Option Int
  url : Option String
deriving DecidableEq, Repr

/-- The two tables of the store. -/
structure DB where
  employers : List EmployerRow
  vacancies : List VacancyRow
deriving DecidableEq, Repr

/-- Where an insert attempt fails.  client: on the Python side, before anything
reaches the server (AttributeError on a non-dict, psycopg2 unable to adapt a
value); the open transaction is unaffected.  server: PostgreSQL rejects the
statement (type coercion, NOT NULL, foreign key); the open transaction is
aborted and stays aborted, since the code never rolls back. -/
inductive InsErr where
  | client
  | server
deriving DecidableEq, Repr

/-- Can psycopg2 adapt this Python value into an SQL literal at all?
A dict has no adapter and raises client-side; every other value is sent. -/
def adaptOk : PyVal → Bool
  | PyVal.pdict _ => false
  | _ => true

/-- Outcome of placing a Python value into an INT column: None becomes SQL
NULL; an int is passed through; a numeric string literal is coerced by the
server, a non-numeric one is a server error; a list arrives as an ARRAY and
mismatches the column type on the server. -/
def coerceInt : PyVal → Except InsErr (Option Int)
  | PyVal.pnone => Except.ok Option.none
  | PyVal.pint n => Except.ok (some n)
  | PyVal.pstr s =>
    match s.toInt? with
    | some n => Except.ok (some n)
    | Option.none => Except.error InsErr.server
  | PyVal.plist _ => Except.error InsErr.server
  | PyVal.pdict _ => Except.error InsErr.client

/-- Outcome of placing a Python value into a VARCHAR column: None becomes SQL
NULL, a string is stored, an int or a list mismatches the column type on the
server. -/
def coerceVarchar : PyVal → Except InsErr (Option String)
  | PyVal.pnone => Except.ok Option.none
  | PyVal.pstr s => Except.ok (some s)
  | PyVal.pint _ => Except.error InsErr.server
  | PyVal.plist _ => Except.error InsErr.server
  | PyVal.pdict _ => Except.error InsErr.client

/-- A NOT NULL column rejects SQL NULL on the server. -/
def requireNotNull {α : Type} : Option α → Except InsErr α
  | some a => Except.ok a
  | Option.none => Except.error InsErr.server

/-- The row an employer dict would insert, per main.insert_employers:
(employer.get("id"), employer.get("name", ""), employer.get("alternate_url", "")).
psycopg2 adapts all parameters before sending, so an unadaptable value is a
client error even when another column would also fail on the server. -/
def employerRowOf (employer : PyDict) : Except InsErr EmployerRow :=
  let idv := getD employer "id" PyVal.pnone
  let namev := getD employer "name" (PyVal.pstr "")
  let urlv := getD employer "alternate_url" (PyVal.pstr "")
  if adaptOk idv && adaptOk namev && adaptOk urlv then do
    let id ← requireNotNull (← coerceInt idv)
    let name ← requireNotNull (← coerceVarchar namev)
    let url ← coerceVarchar urlv
    Except.ok ⟨id, name, url⟩
  else Except.error InsErr.client

/-- Is this Python value a dict (Python isinstance(x, dict))? -/
def isDict : PyVal → Bool
  | PyVal.pdict _ => true
  | _ => false

/-- The salary dict main.insert_vacancies works with:
salary = vacancy.get("salary", {}) followed by the isinstance check replacing
any non-dict value by {}. -/
def effectiveSalary (vacancy : PyDict) : PyDict :=
  match getD vacancy "salary" (PyVal.pdict []) with
  | PyVal.pdict fields => fields
  | _ => []

/-- The row a vacancy dict would insert, per main.insert_vacancies.
employer = vacancy.get("employer", {}) and salary = vacancy.get("salary", {})
are read first; a salary that is present but not a dict is replaced by {}
(the isinstance check); an employer that is not a dict makes
employer.get("id") raise AttributeError inside the try block, a client error. -/
def vacancyRowOf (vacancy : PyDict) : Except InsErr VacancyRow :=
  let salary : PyDict := effectiveSalary vacancy
  match getD vacancy "employer" (PyVal.pdict []) with
  | PyVal.pdict emp =>
    let idv := getD vacancy "id" PyVal.pnone
    let namev := getD vacancy "name" (PyVal.pstr "")
    let fromv := getD salary "from" PyVal.pnone
    let tov := getD salary "to" PyVal.pnone
    let curv := getD salary "currency" PyVal.pnone
    let eidv := getD emp "id" PyVal.pnone
    let urlv := getD vacancy "alternate_url" (PyVal.pstr "")
    if adaptOk idv && adaptOk namev && adaptOk fromv && adaptOk tov &&
        adaptOk curv && adaptOk eidv && adaptOk urlv then do
      let vid ← requireNotNull (← coerceInt idv)
      let title ← requireNotNull (← coerceVarchar namev)
      let sfrom ← coerceInt fromv
      let sto ← coerceInt tov
      let cur ← coerceVarchar curv
      let eid ← coerceInt eidv
      let url ← coerceVarchar urlv
      Except.ok ⟨vid, title, sfrom, sto, cur, eid, url⟩
    else Except.error InsErr.client
  | _ => Except.error InsErr.client

/-- Is an employer_id already present (the UNIQUE constraint arbiter of
ON CONFLICT (employer_id) DO NOTHING, and the foreign-key target)? -/
def hasEmployerId (rows : List EmployerRow) (i : Int) : Bool :=
  rows.any (fun r => r.employer_id == i)

/-- Is a vacancy_id already present (the UNIQUE constraint arbiter of
ON CONFLICT (vacancy_id) DO NOTHING)? -/
def hasVacancyId (rows : List VacancyRow) (i : Int) : Bool :=
  rows.any (fun r => r.vacancy_id == i)

/-- One iteration of the loop in main.insert_employers over the state
(rows of the employers table, transaction-aborted flag).  On an aborted
transaction cursor.execute raises immediately and the except block swallows
it.  A server error sets the aborted flag; a client error changes nothing;
a duplicate employer_id is skipped by ON CONFLICT DO NOTHING; otherwise the
row is appended. -/
def insertEmployerStep (st : List EmployerRow × Bool) (employer : PyDict) :
    List EmployerRow × Bool :=
  if st.2 then st
  else
    match employerRowOf employer with
    | Except.error InsErr.client => st
    | Except.error InsErr.server => (st.1, true)
    | Except.ok row =>
      if hasEmployerId st.1 row.employer_id then st
      else (st.1 ++ [row], false)

/-- The `for employer in data` loop of main.insert_employers. -/
def insertEmployersLoop (data : List PyDict) (st : List EmployerRow × Bool) :
    List EmployerRow × Bool :=
  match data with
  | [] => st
  | e :: rest => insertEmployersLoop rest (insertEmployerStep st e)

/-- Effect of main.insert_employers on the employers table: run the loop in
one transaction, then conn.commit(); committing an aborted transaction
performs a rollback, leaving the table as it was. -/
def empResult (data : List PyDict) (rows : List EmployerRow) : List EmployerRow :=
  let st := insertEmployersLoop data (rows, false)
  if st.2 then rows else st.1

/-- main.insert_employers(data, conn). -/
def insert_employers (data : List PyDict) (db : DB) : DB :=
  { db with employers := empResult data db.employers }

/-- One iteration of the loop in main.insert_vacancies.  An invalid record is
skipped by `continue` before the cursor is touched; then as for employers,
with one more server-side outcome: a row whose employer_id is neither NULL
nor present in the employers table violates the foreign key.  The unique
arbiter of ON CONFLICT is checked first, so a duplicate vacancy_id is skipped
before the foreign key is evaluated. -/
def insertVacancyStep (employers : List EmployerRow)
    (st : List VacancyRow × Bool) (vacancy : PyDict) : List VacancyRow × Bool :=
  if validate_data vacancy = false then st
  else if st.2 then st
  else
    match vacancyRowOf vacancy with
    | Except.error InsErr.client => st
    | Except.error InsErr.server => (st.1, true)
    | Except.ok row =>
      if hasVacancyId st.1 row.vacancy_id then st
      else
        match row.employer_id with
        | Option.none => (st.1 ++ [row], false)
        | some e =>
          if hasEmployerId employers e then (st.1 ++ [row], false)
          else (st.1, true)

/-- The `for vacancy in data` loop of main.insert_vacancies. -/
def insertVacanciesLoop (employers : List EmployerRow) (data : List PyDict)
    (st : List VacancyRow × Bool) : List VacancyRow × Bool :=
  match data with
  | [] => st
  | v :: rest => insertVacanciesLoop employers rest (insertVacancyStep employers st v)

/-- Effect of main.insert_vacancies on the vacancies table (the employers
table is only read, for the foreign key). -/
def vacResult (employers : List EmployerRow) (data : List PyDict)
    (rows : List VacancyRow) : List VacancyRow :=
  let st := insertVacanciesLoop employers data (rows, false)
  if st.2 then rows else st.1

/-- main.insert_vacancies(data, conn). -/
def insert_vacancies (data : List PyDict) (db : DB) : DB :=
  { db with vacancies := vacResult db.employers data db.vacancies }

/-- The storage phase of main.main for one batch: insert_employers(employers_data, conn)
followed by insert_vacancies(vacancies_data, conn). -/
def runPipeline (employersData vacanciesData : List PyDict) (db : DB) : DB :=
  insert_vacancies vacanciesData (insert_employers employersData db)

/-! ## Reporting queries (db_manager.DBManager) -/

/-- (salary_from + salary_to) / 2 on INT columns: PostgreSQL integer division
truncates toward zero. -/
def sqlMidpoint (f t : Int) : Int := Int.tdiv (f + t) 2

/-- The non-NULL values of (salary_from + salary_to) / 2 over a list of rows,
in order.  In SQL the sum is NULL as soon as either bound is NULL, and both
AVG and a WHERE ... IS NOT NULL clause ignore exactly those rows. -/
def midpoints (vs : List VacancyRow) : List Int :=
  vs.filterMap (fun v =>
    match v.salary_from, v.salary_to with
    | some f, some t => some (sqlMidpoint f t)
    | _, _ => Option.none)

/-- PostgreSQL ROUND on numeric: to the nearest integer, halves away from
zero. -/
def pgRound (q : ℚ) : Int :=
  if 0 ≤ q then Int.floor (q + 1 / 2) else -Int.floor (-q + 1 / 2)

/-- DBManager.get_avg_salary: SELECT ROUND(AVG((salary_from + salary_to) / 2))
FROM vacancies WHERE salary_from IS NOT NULL AND salary_to IS NOT NULL.
An aggregate query without GROUP BY always returns exactly one row; AVG over
zero qualifying rows is NULL. -/
def DBManager.get_avg_salary (vs : List VacancyRow) : List (Option Int) :=
  let ms := midpoints vs
  if ms.isEmpty then [Option.none]
  else [some (pgRound ((ms.sum : ℚ) / (ms.length : ℚ)))]

/-- DBManager.get_vacancies_with_higher_salary: SELECT title,
(salary_from + salary_to) / 2 FROM vacancies WHERE (salary_from + salary_to) / 2
> (SELECT AVG((salary_from + salary_to) / 2) FROM vacancies) AND salary_from
IS NOT NULL AND salary_to IS NOT NULL.  The subquery has no WHERE clause, but
(salary_from + salary_to) / 2 is NULL whenever either bound is NULL and AVG
ignores NULL inputs, so the average still ranges over exactly the rows with
both bounds present.  When no row qualifies, AVG is NULL, the comparison
x > NULL is never true, and no row is returned. -/
def DBManager.get_vacancies_with_higher_salary (vs : List VacancyRow) :
    List (String × Int) :=
  let ms := midpoints vs
  if ms.isEmpty then []
  else
    let avg : ℚ := (ms.sum : ℚ) / (ms.length : ℚ)
    vs.filterMap (fun v =>
      match v.salary_from, v.salary_to with
      | some f, some t =>
        if (sqlMidpoint f t : ℚ) > avg then some (v.title, sqlMidpoint f t)
        else Option.none
      | _, _ => Option.none)

/-- SQL LIKE pattern matching over characters: % matches any sequence,
_ matches any one character, every other character matches itself.
(The escape character is not modelled; no claim uses it.) -/
def likeMatch (p s : List Char) : Bool :=
  match p, s with
  | [], [] => true
  | [], _ :: _ => false
  | '%' :: ps, s =>
    likeMatch ps s ||
      (match s with
       | [] => false
       | _ :: s2 => likeMatch ('%' :: ps) s2)
  | '_' :: _, [] => false
  | '_' :: ps, _ :: s2 => likeMatch ps s2
  | _ :: _, [] => false
  | c :: ps, d :: s2 => c == d && likeMatch ps s2

/-- DBManager.get_vacancies_with_keyword: SELECT title, employer_id, url FROM
vacancies WHERE LOWER(title) LIKE %s, with the parameter "%" + keyword.lower()
+ "%".  Lowercasing (Python str.lower on the keyword, SQL LOWER on the title)
is modelled character by character. -/
def DBManager.get_vacancies_with_keyword (vs : List VacancyRow)
    (keyword : String) : List (String × Option Int × Option String) :=
  let pat := ['%'] ++ keyword.toList.map Char.toLower ++ ['%']
  vs.filterMap (fun v =>
    if likeMatch pat (v.title.toList.map Char.toLower) then
      some (v.title, v.employer_id, v.url)
    else Option.none)

/-! ## Definitions written from the specification's words, for comparison -/

/-- Both salary bounds present (the specification's qualifying rows). -/
def bothBounds (v : VacancyRow) : Bool :=
  v.salary_from.isSome && v.salary_to.isSome

/-- The sqlMidpoint of a row's salary bounds (meaningful on qualifying rows). -/
def midOfRow (v : VacancyRow) : Int :=
  match v.salary_from, v.salary_to with
  | some f, some t => sqlMidpoint f t
  | _, _ => 0

/-- The specification's list of qualifying midpoints: the sqlMidpoint of each
vacancy where both salary bounds are present. -/
def midsSpec (vs : List VacancyRow) : List Int :=
  (vs.filter bothBounds).map midOfRow

/-- The above-average query as the specification words it: exactly the
vacancies with both bounds present whose sqlMidpoint strictly exceeds the global
average sqlMidpoint over the rows with both bounds present. -/
def higherSalarySpec (vs : List VacancyRow) : List (String × Int) :=
  let avg : ℚ := ((midsSpec vs).sum : ℚ) / ((midsSpec vs).length : ℚ)
  (vs.filter (fun v => bothBounds v && decide ((midOfRow v : ℚ) > avg))).map
    (fun v => (v.title, midOfRow v))

/-- The environment refuting C3: attempt 0 receives an HTTP 404 response — a
failure in the specification's mapping — and every later attempt would
return a non-empty item list. -/
def envNonSuccess : Nat → FetchAttempt := fun k =>
  if k = 0 then FetchAttempt.response 404 []
  else FetchAttempt.response 200 [("items", PyVal.plist [PyVal.pint 42])]

/-! ## Helper lemmas: the retry loop -/

/-- The backoff sleeps performed by failing attempts a, a+1, ..., a+n-1. -/
def powSleeps (a n : Nat) : List Nat := (List.range' a n).map (fun k => 2 ^ k)

theorem powSleeps_zero (a : Nat) : powSleeps a 0 = [] := rfl

theorem powSleeps_succ (a n : Nat) :
    powSleeps a (n + 1) = 2 ^ a :: powSleeps (a + 1) n := rfl

theorem retryGo_allFail (call : Nat → Option PyVal) (retries : Nat) :
    ∀ n a sleeps, a + n = retries + 1 →
      (∀ k, a ≤ k → k ≤ retries → call k = Option.none) →
      retryGo call retries (List.range' a n) sleeps =
        ⟨PyVal.plist [], retries + 1, sleeps ++ powSleeps a (retries - a)⟩ := by
  intro n
  induction n with
  | zero =>
    intro a sleeps ha _
    have : retries - a = 0 := by omega
    simp [retryGo, this, powSleeps_zero]
  | succ n ih =>
    intro a sleeps ha hfail
    have haR : a ≤ retries := by omega
    have hca : call a = Option.none := hfail a (Nat.le_refl a) haR
    by_cases hlt : a < retries
    · have hn : a + 1 + n = retries + 1 := by omega
      have step : retryGo call retries (List.range' a (n + 1)) sleeps =
          retryGo call retries (List.range' (a + 1) n) (sleeps ++ [2 ^ a]) := by
        simp [List.range'_succ, retryGo, hca, hlt]
      rw [step, ih (a + 1) (sleeps ++ [2 ^ a]) hn
        (fun k hk1 hk2 => hfail k (by omega) hk2)]
      have hsub : retries - a = (retries - (a + 1)) + 1 := by omega
      simp [hsub, powSleeps_succ, List.append_assoc]
    · have haeq : a = retries := by omega
      have hn0 : n = 0 := by omega
      subst haeq hn0
      simp [List.range'_succ, retryGo, hca, powSleeps_zero]

theorem retryGo_success (call : Nat → Option PyVal) (retries : Nat)
    (v : PyVal) (j : Nat) :
    ∀ n a sleeps, a + n = retries + 1 → a ≤ j → j ≤ retries →
      (∀ k, a ≤ k → k < j → call k = Option.none) → call j = some v →
      retryGo call retries (List.range' a n) sleeps =
        ⟨v, j + 1, sleeps ++ powSleeps a (j - a)⟩ := by
  intro n
  induction n with
  | zero =>
    intro a sleeps ha haj hj _ _
    omega
  | succ n ih =>
    intro a sleeps ha haj hj hfail hj2
    by_cases hea : a = j
    · subst hea
      simp [List.range'_succ, retryGo, hj2, Nat.sub_self, powSleeps_zero]
    · have halt : a < j := by omega
      have hca : call a = Option.none := hfail a (Nat.le_refl a) halt
      have hlt : a < retries := by omega
      have step : retryGo call retries (List.range' a (n + 1)) sleeps =
          retryGo call retries (List.range' (a + 1) n) (sleeps ++ [2 ^ a]) := by
        simp [List.range'_succ, retryGo, hca, hlt]
      rw [step, ih (a + 1) (sleeps ++ [2 ^ a]) (by omega) (by omega) hj
        (fun k hk1 hk2 => hfail k (by omega) hk2) hj2]
      have hsub : j - a = (j - (a + 1)) + 1 := by omega
      simp [hsub, powSleeps_succ, List.append_assoc]

theorem retryGo_sleeps (call : Nat → Option PyVal) (retries : Nat) :
    ∀ n a sleeps, a + n = retries + 1 →
      ((retryGo call retries (List.range' a n) sleeps).sleeps =
        sleeps ++ powSleeps a
          ((retryGo call retries (List.range' a n) sleeps).attempts - 1 - a))
      ∧ (1 ≤ n → a < (retryGo call retries (List.range' a n) sleeps).attempts) := by
  intro n
  induction n with
  | zero =>
    intro a sleeps ha
    have h1 : retries + 1 - 1 - a = 0 := by omega
    have h2 : retries - a = 0 := by omega
    simp [retryGo, h1, h2, powSleeps_zero]
  | succ n ih =>
    intro a sleeps ha
    rcases hca : call a with _ | v
    · by_cases hlt : a < retries
      · have hn1 : 1 ≤ n := by omega
        have step : retryGo call retries (List.range' a (n + 1)) sleeps =
            retryGo call retries (List.range' (a + 1) n) (sleeps ++ [2 ^ a]) := by
          simp [List.range'_succ, retryGo, hca, hlt]
        rw [step]
        obtain ⟨hs, hlt2⟩ := ih (a + 1) (sleeps ++ [2 ^ a]) (by omega)
        have hlt3 := hlt2 hn1
        rw [hs]
        constructor
        · have hsub : (retryGo call retries (List.range' (a + 1) n) (sleeps ++ [2 ^ a])).attempts - 1 - a
              = ((retryGo call retries (List.range' (a + 1) n) (sleeps ++ [2 ^ a])).attempts - 1 - (a + 1)) + 1 := by
            omega
          simp [hsub, powSleeps_succ, List.append_assoc]
        · intro _
          omega
      · have haeq : a = retries := by omega
        have hn0 : n = 0 := by omega
        subst hn0
        have step : retryGo call retries (List.range' a 1) sleeps =
            ⟨PyVal.plist [], retries + 1, sleeps⟩ := by
          simp [List.range'_succ, retryGo, hca, hlt]
        rw [step]
        have h2 : retries - a = 0 := by omega
        constructor
        · simp [h2, powSleeps_zero]
        · intro h3
          show a < retries + 1
          omega
    · have step : retryGo call retries (List.range' a (n + 1)) sleeps =
          ⟨v, a + 1, sleeps⟩ := by
        simp [List.range'_succ, retryGo, hca]
      rw [step]
      have h1 : a + 1 - 1 - a = 0 := by omega
      simp [h1, powSleeps_zero]

theorem get_vacancies_with_retry_allFail (call : Nat → Option PyVal) (retries : Nat)
    (h : ∀ k, k ≤ retries → call k = Option.none) :
    get_vacancies_with_retry call retries =
      ⟨PyVal.plist [], retries + 1, powSleeps 0 retries⟩ := by
  unfold get_vacancies_with_retry
  rw [List.range_eq_range']
  rw [retryGo_allFail call retries (retries + 1) 0 [] (by omega)
    (fun k _ hk2 => h k hk2)]
  simp

theorem get_vacancies_with_retry_success (call : Nat → Option PyVal) (retries : Nat)
    (v : PyVal) (j : Nat) (hj : j ≤ retries)
    (hfail : ∀ k, k < j → call k = Option.none) (hsucc : call j = some v) :
    get_vacancies_with_retry call retries = ⟨v, j + 1, powSleeps 0 j⟩ := by
  unfold get_vacancies_with_retry
  rw [List.range_eq_range']
  rw [retryGo_success call retries v j (retries + 1) 0 [] (by omega) (by omega) hj
    (fun k _ hk2 => hfail k hk2) hsucc]
  simp

theorem get_vacancies_with_retry_sleeps (call : Nat → Option PyVal) (retries : Nat) :
    (get_vacancies_with_retry call retries).sleeps =
      powSleeps 0 ((get_vacancies_with_retry call retries).attempts - 1) := by
  unfold get_vacancies_with_retry
  rw [List.range_eq_range']
  have h := (retryGo_sleeps call retries (retries + 1) 0 [] (by omega)).1
  simpa using h

theorem powSleeps_eq_range_map (n : Nat) :
    powSleeps 0 n = (List.range n).map (fun k => 2 ^ k) := by
  rw [powSleeps, List.range_eq_range']

/-! ## C2, C3: retry policy theorems -/

/-- C2: with maxRetries = 3, attempt 0 runs with no delay and the sleep
performed before retry attempt k (k at least 1) is 2 ^ (k - 1): the sleep
list of a run with a attempts is exactly [2 ^ 0, ..., 2 ^ (a - 2)].  When
every attempt fails the fetcher makes exactly maxRetries + 1 = 4 attempts and
returns an empty list to the caller without raising; when the fetch fails
twice and then succeeds, the successful result is returned and the total
backoff slept is 2 ^ 0 + 2 ^ 1. -/
theorem spec_retry_backoff_policy (call : Nat → Option PyVal) (v : PyVal) :
    ((∀ k, k ≤ 3 → call k = Option.none) →
      get_vacancies_with_retry call 3 =
        ⟨PyVal.plist [], 3 + 1, [2 ^ 0, 2 ^ 1, 2 ^ 2]⟩)
    ∧ (call 0 = Option.none → call 1 = Option.none → call 2 = some v →
        get_vacancies_with_retry call 3 = ⟨v, 3, [2 ^ 0, 2 ^ 1]⟩
        ∧ ([2 ^ 0, 2 ^ 1] : List Nat).sum = 2 ^ 0 + 2 ^ 1)
    ∧ (∀ retries, (get_vacancies_with_retry call retries).sleeps =
        (List.range ((get_vacancies_with_retry call retries).attempts - 1)).map
          (fun k => 2 ^ k)) := by
  refine ⟨?_, ?_, ?_⟩
  · intro h
    rw [get_vacancies_with_retry_allFail call 3 h]
    rfl
  · intro h0 h1 h2
    constructor
    · rw [get_vacancies_with_retry_success call 3 v 2 (by omega) ?_ h2]
      · rfl
      · intro k hk
        interval_cases k <;> assumption
    · simp
  · intro retries
    rw [get_vacancies_with_retry_sleeps, powSleeps_eq_range_map]

/-- Witness for spec_retry_backoff_policy: a call that always raises makes 4
attempts sleeping [1, 2, 4]; a call that raises twice and then returns one
item returns it after 3 attempts sleeping [1, 2]. -/
theorem spec_retry_backoff_policy_witness :
    get_vacancies_with_retry (fun _ => Option.none) 3 =
      ⟨PyVal.plist [], 3 + 1, [2 ^ 0, 2 ^ 1, 2 ^ 2]⟩
    ∧ get_vacancies_with_retry
        (fun k => if k < 2 then Option.none else some (PyVal.plist [PyVal.pint 7])) 3 =
      ⟨PyVal.plist [PyVal.pint 7], 3, [2 ^ 0, 2 ^ 1]⟩ := by
  constructor
  · exact (spec_retry_backoff_policy (fun _ => Option.none) PyVal.pnone).1
      (fun k _ => rfl)
  · exact ((spec_retry_backoff_policy
      (fun k => if k < 2 then Option.none else some (PyVal.plist [PyVal.pint 7]))
      (PyVal.plist [PyVal.pint 7])).2.1 rfl rfl rfl).1

/-- C3 counterexample: under envNonSuccess, attempt 0 fails with a non-success
HTTP response, yet the fetcher makes exactly one attempt and returns an empty
list — the call is not retried even though a retry would have produced the
items, contradicting the claim that a non-success response is retried. -/
theorem spec_retry_nonsuccess_counterexample :
    envNonSuccess 0 = FetchAttempt.response 404 []
    ∧ envNonSuccess 1 = FetchAttempt.response 200 [("items", PyVal.plist [PyVal.pint 42])]
    ∧ get_vacancies_with_retry (apiFetch envNonSuccess) 3 =
        ⟨PyVal.plist [], 1, []⟩ := by
  exact ⟨rfl, rfl, rfl⟩

/-- C3 amended: only attempts that raise an exception (network errors) are
retried, up to maxRetries additional attempts; a non-success HTTP response is
mapped by Hh_Api.get_vacancies to an empty list, which the retrying fetcher
treats as a successful result and returns at once without any retry. -/
theorem spec_retry_exceptions_only (env : Nat → FetchAttempt) (retries : Nat) :
    ((∀ k, k ≤ retries → env k = FetchAttempt.raise) →
      (get_vacancies_with_retry (apiFetch env) retries).attempts = retries + 1
      ∧ (get_vacancies_with_retry (apiFetch env) retries).result = PyVal.plist [])
    ∧ (∀ status body, status ≠ 200 → env 0 = FetchAttempt.response status body →
        get_vacancies_with_retry (apiFetch env) retries = ⟨PyVal.plist [], 1, []⟩) := by
  constructor
  · intro h
    have hall : ∀ k, k ≤ retries → apiFetch env k = Option.none := by
      intro k hk
      simp [apiFetch, h k hk]
    rw [get_vacancies_with_retry_allFail (apiFetch env) retries hall]
    exact ⟨rfl, rfl⟩
  · intro status body hs h0
    have hcall : apiFetch env 0 = some (PyVal.plist []) := by
      simp [apiFetch, h0, Hh_Api.get_vacancies, hs]
    rw [get_vacancies_with_retry_success (apiFetch env) retries (PyVal.plist []) 0
      (by omega) (fun k hk => absurd hk (by omega)) hcall]
    rfl

/-- Witness for spec_retry_exceptions_only: an always-raising environment is
retried to 4 attempts; an HTTP 500 on attempt 0 ends the run at 1 attempt. -/
theorem spec_retry_exceptions_only_witness :
    (get_vacancies_with_retry (apiFetch (fun _ => FetchAttempt.raise)) 3).attempts = 4
    ∧ get_vacancies_with_retry (apiFetch (fun _ => FetchAttempt.response 500 [])) 3 =
        ⟨PyVal.plist [], 1, []⟩ := by
  constructor
  · exact ((spec_retry_exceptions_only (fun _ => FetchAttempt.raise) 3).1
      (fun k _ => rfl)).1
  · exact (spec_retry_exceptions_only (fun _ => FetchAttempt.response 500 []) 3).2
      500 [] (by omega) rfl

/-! ## Helper lemmas: employer inserts -/

theorem empLoop_aborted (data : List PyDict) :
    ∀ rows, insertEmployersLoop data (rows, true) = (rows, true) := by
  induction data with
  | nil => intro rows; rfl
  | cons e rest ih =>
    intro rows
    show insertEmployersLoop rest (insertEmployerStep (rows, true) e) = (rows, true)
    have hstep : insertEmployerStep (rows, true) e = (rows, true) := rfl
    rw [hstep, ih rows]

theorem empStep_fst (st : List EmployerRow × Bool) (e : PyDict) :
    ∃ l, (insertEmployerStep st e).1 = st.1 ++ l := by
  unfold insertEmployerStep
  split
  · exact ⟨[], by simp⟩
  · split
    · exact ⟨[], by simp⟩
    · exact ⟨[], by simp⟩
    · split
      · exact ⟨[], by simp⟩
      · exact ⟨_, rfl⟩

theorem empLoop_fst (data : List PyDict) :
    ∀ st, ∃ l, (insertEmployersLoop data st).1 = st.1 ++ l := by
  induction data with
  | nil => intro st; exact ⟨[], by simp [insertEmployersLoop]⟩
  | cons e rest ih =>
    intro st
    obtain ⟨l1, h1⟩ := empStep_fst st e
    obtain ⟨l2, h2⟩ := ih (insertEmployerStep st e)
    exact ⟨l1 ++ l2, by
      show (insertEmployersLoop rest (insertEmployerStep st e)).1 = st.1 ++ (l1 ++ l2)
      rw [h2, h1, List.append_assoc]⟩

theorem hasEmployerId_append_left (rows l : List EmployerRow) (i : Int)
    (h : hasEmployerId rows i = true) : hasEmployerId (rows ++ l) i = true := by
  unfold hasEmployerId at *
  rw [List.any_append, h]
  rfl

theorem empLoop_mono (data : List PyDict) (st : List EmployerRow × Bool) (i : Int)
    (h : hasEmployerId st.1 i = true) :
    hasEmployerId (insertEmployersLoop data st).1 i = true := by
  obtain ⟨l, hl⟩ := empLoop_fst data st
  rw [hl]
  exact hasEmployerId_append_left st.1 l i h

theorem empLoop_sound (data : List PyDict) :
    ∀ rows, (insertEmployersLoop data (rows, false)).2 = false →
      ∀ e ∈ data, employerRowOf e = Except.error InsErr.client
        ∨ ∃ row, employerRowOf e = Except.ok row
            ∧ hasEmployerId (insertEmployersLoop data (rows, false)).1
                row.employer_id = true := by
  induction data with
  | nil => intro rows _ e he; exact absurd he (List.not_mem_nil e)
  | cons d rest ih =>
    intro rows hb e he
    have hloop : insertEmployersLoop (d :: rest) (rows, false)
        = insertEmployersLoop rest (insertEmployerStep (rows, false) d) := rfl
    match hrow : employerRowOf d with
    | Except.error InsErr.client =>
      have hstep : insertEmployerStep (rows, false) d = (rows, false) := by
        simp [insertEmployerStep, hrow]
      rw [hloop, hstep] at hb ⊢
      rcases List.mem_cons.mp he with he1 | he2
      · subst he1; exact Or.inl hrow
      · exact ih rows hb e he2
    | Except.error InsErr.server =>
      have hstep : insertEmployerStep (rows, false) d = (rows, true) := by
        simp [insertEmployerStep, hrow]
      rw [hloop, hstep, empLoop_aborted rest rows] at hb
      exact absurd hb (by simp)
    | Except.ok row =>
      by_cases hconf : hasEmployerId rows row.employer_id = true
      · have hstep : insertEmployerStep (rows, false) d = (rows, false) := by
          simp [insertEmployerStep, hrow, hconf]
        rw [hloop, hstep] at hb ⊢
        rcases List.mem_cons.mp he with he1 | he2
        · subst he1
          exact Or.inr ⟨row, hrow, empLoop_mono rest (rows, false) _ hconf⟩
        · exact ih rows hb e he2
      · have hconf2 : hasEmployerId rows row.employer_id = false :=
          eq_false_of_ne_true hconf
        have hstep : insertEmployerStep (rows, false) d = (rows ++ [row], false) := by
          simp [insertEmployerStep, hrow, hconf2]
        rw [hloop, hstep] at hb ⊢
        have hself : hasEmployerId (rows ++ [row]) row.employer_id = true := by
          unfold hasEmployerId
          simp
        rcases List.mem_cons.mp he with he1 | he2
        · subst he1
          exact Or.inr ⟨row, hrow, empLoop_mono rest (rows ++ [row], false) _ hself⟩
        · exact ih (rows ++ [row]) hb e he2

theorem empLoop_fix (data : List PyDict) :
    ∀ rows, (∀ e ∈ data, employerRowOf e = Except.error InsErr.client
        ∨ ∃ row, employerRowOf e = Except.ok row
            ∧ hasEmployerId rows row.employer_id = true) →
      insertEmployersLoop data (rows, false) = (rows, false) := by
  induction data with
  | nil => intro rows _; rfl
  | cons d rest ih =>
    intro rows h
    have hloop : insertEmployersLoop (d :: rest) (rows, false)
        = insertEmployersLoop rest (insertEmployerStep (rows, false) d) := rfl
    have hstep : insertEmployerStep (rows, false) d = (rows, false) := by
      rcases h d (List.mem_cons_self d rest) with h1 | ⟨row, hrow, hconf⟩
      · simp [insertEmployerStep, h1]
      · simp [insertEmployerStep, hrow, hconf]
    rw [hloop, hstep]
    exact ih rows (fun e he => h e (List.mem_cons_of_mem d he))

theorem empResult_idem (data : List PyDict) (rows : List EmployerRow) :
    empResult data (empResult data rows) = empResult data rows := by
  rcases hloop : insertEmployersLoop data (rows, false) with ⟨R, b⟩
  have hres : empResult data rows = if b then rows else R := by
    unfold empResult
    rw [hloop]
  cases b with
  | true =>
    have h1 : empResult data rows = rows := by simpa using hres
    rw [h1]
    exact h1
  | false =>
    have h1 : empResult data rows = R := by simpa using hres
    rw [h1]
    have hb : (insertEmployersLoop data (rows, false)).2 = false := by rw [hloop]
    have hsound := empLoop_sound data rows hb
    rw [hloop] at hsound
    have hfix := empLoop_fix data R (fun e he => hsound e he)
    unfold empResult
    rw [hfix]
    simp

theorem insert_employers_idem (data : List PyDict) (db : DB) :
    insert_employers data (insert_employers data db) = insert_employers data db := by
  unfold insert_employers
  simp [empResult_idem]

/-! ## Helper lemmas: vacancy inserts -/

theorem vacStep_invalid (E : List EmployerRow) (st : List VacancyRow × Bool)
    (v : PyDict) (h : validate_data v = false) :
    insertVacancyStep E st v = st := by
  unfold insertVacancyStep
  rw [if_pos h]

theorem vacStep_aborted (E : List EmployerRow) (rows : List VacancyRow)
    (v : PyDict) : insertVacancyStep E (rows, true) v = (rows, true) := by
  unfold insertVacancyStep
  split
  · rfl
  · rfl

theorem vacLoop_aborted (E : List EmployerRow) (data : List PyDict) :
    ∀ rows, insertVacanciesLoop E data (rows, true) = (rows, true) := by
  induction data with
  | nil => intro rows; rfl
  | cons v rest ih =>
    intro rows
    show insertVacanciesLoop E rest (insertVacancyStep E (rows, true) v) = (rows, true)
    rw [vacStep_aborted, ih rows]

theorem vacStep_fst (E : List EmployerRow) (st : List VacancyRow × Bool)
    (v : PyDict) : ∃ l, (insertVacancyStep E st v).1 = st.1 ++ l := by
  unfold insertVacancyStep
  split
  · exact ⟨[], by simp⟩
  · split
    · exact ⟨[], by simp⟩
    · split
      · exact ⟨[], by simp⟩
      · exact ⟨[], by simp⟩
      · split
        · exact ⟨[], by simp⟩
        · split
          · exact ⟨_, rfl⟩
          · split
            · exact ⟨_, rfl⟩
            · exact ⟨[], by simp⟩

theorem vacLoop_fst (E : List EmployerRow) (data : List PyDict) :
    ∀ st, ∃ l, (insertVacanciesLoop E data st).1 = st.1 ++ l := by
  induction data with
  | nil => intro st; exact ⟨[], by simp [insertVacanciesLoop]⟩
  | cons v rest ih =>
    intro st
    obtain ⟨l1, h1⟩ := vacStep_fst E st v
    obtain ⟨l2, h2⟩ := ih (insertVacancyStep E st v)
    exact ⟨l1 ++ l2, by
      show (insertVacanciesLoop E rest (insertVacancyStep E st v)).1 = st.1 ++ (l1 ++ l2)
      rw [h2, h1, List.append_assoc]⟩

theorem hasVacancyId_append_left (rows l : List VacancyRow) (i : Int)
    (h : hasVacancyId rows i = true) : hasVacancyId (rows ++ l) i = true := by
  unfold hasVacancyId at *
  rw [List.any_append, h]
  rfl

theorem vacLoop_mono (E : List EmployerRow) (data : List PyDict)
    (st : List VacancyRow × Bool) (i : Int) (h : hasVacancyId st.1 i = true) :
    hasVacancyId (insertVacanciesLoop E data st).1 i = true := by
  obtain ⟨l, hl⟩ := vacLoop_fst E data st
  rw [hl]
  exact hasVacancyId_append_left st.1 l i h

theorem vacLoop_sound (E : List EmployerRow) (data : List PyDict) :
    ∀ rows, (insertVacanciesLoop E data (rows, false)).2 = false →
      ∀ v ∈ data, validate_data v = false
        ∨ vacancyRowOf v = Except.error InsErr.client
        ∨ ∃ row, vacancyRowOf v = Except.ok row
            ∧ hasVacancyId (insertVacanciesLoop E data (rows, false)).1
                row.vacancy_id = true := by
  induction data with
  | nil => intro rows _ v hv; exact absurd hv (List.not_mem_nil v)
  | cons d rest ih =>
    intro rows hb v hv
    have hloop : insertVacanciesLoop E (d :: rest) (rows, false)
        = insertVacanciesLoop E rest (insertVacancyStep E (rows, false) d) := rfl
    by_cases hval : validate_data d = false
    · have hstep : insertVacancyStep E (rows, false) d = (rows, false) :=
        vacStep_invalid E (rows, false) d hval
      rw [hloop, hstep] at hb ⊢
      rcases List.mem_cons.mp hv with hv1 | hv2
      · subst hv1; exact Or.inl hval
      · exact ih rows hb v hv2
    · have hval2 : validate_data d = true := by simpa using hval
      match hrow : vacancyRowOf d with
      | Except.error InsErr.client =>
        have hstep : insertVacancyStep E (rows, false) d = (rows, false) := by
          simp [insertVacancyStep, hval2, hrow]
        rw [hloop, hstep] at hb ⊢
        rcases List.mem_cons.mp hv with hv1 | hv2
        · subst hv1; exact Or.inr (Or.inl hrow)
        · exact ih rows hb v hv2
      | Except.error InsErr.server =>
        have hstep : insertVacancyStep E (rows, false) d = (rows, true) := by
          simp [insertVacancyStep, hval2, hrow]
        rw [hloop, hstep, vacLoop_aborted E rest rows] at hb
        exact absurd hb (by simp)
      | Except.ok row =>
        by_cases hconf : hasVacancyId rows row.vacancy_id = true
        · have hstep : insertVacancyStep E (rows, false) d = (rows, false) := by
            simp [insertVacancyStep, hval2, hrow, hconf]
          rw [hloop, hstep] at hb ⊢
          rcases List.mem_cons.mp hv with hv1 | hv2
          · subst hv1
            exact Or.inr (Or.inr ⟨row, hrow, vacLoop_mono E rest (rows, false) _ hconf⟩)
          · exact ih rows hb v hv2
        · have hconf2 : hasVacancyId rows row.vacancy_id = false :=
            eq_false_of_ne_true hconf
          have hself : hasVacancyId (rows ++ [row]) row.vacancy_id = true := by
            unfold hasVacancyId
            simp
          match heid : row.employer_id with
          | Option.none =>
            have hstep : insertVacancyStep E (rows, false) d = (rows ++ [row], false) := by
              simp [insertVacancyStep, hval2, hrow, hconf2, heid]
            rw [hloop, hstep] at hb ⊢
            rcases List.mem_cons.mp hv with hv1 | hv2
            · subst hv1
              exact Or.inr (Or.inr ⟨row, hrow,
                vacLoop_mono E rest (rows ++ [row], false) _ hself⟩)
            · exact ih (rows ++ [row]) hb v hv2
          | some e =>
            by_cases hfk : hasEmployerId E e = true
            · have hstep : insertVacancyStep E (rows, false) d
                  = (rows ++ [row], false) := by
                simp [insertVacancyStep, hval2, hrow, hconf2, heid, hfk]
              rw [hloop, hstep] at hb ⊢
              rcases List.mem_cons.mp hv with hv1 | hv2
              · subst hv1
                exact Or.inr (Or.inr ⟨row, hrow,
                  vacLoop_mono E rest (rows ++ [row], false) _ hself⟩)
              · exact ih (rows ++ [row]) hb v hv2
            · have hfk2 : hasEmployerId E e = false := eq_false_of_ne_true hfk
              have hstep : insertVacancyStep E (rows, false) d = (rows, true) := by
                simp [insertVacancyStep, hval2, hrow, hconf2, heid, hfk2]
              rw [hloop, hstep, vacLoop_aborted E rest rows] at hb
              exact absurd hb (by simp)

theorem vacLoop_fix (E : List EmployerRow) (data : List PyDict) :
    ∀ rows, (∀ v ∈ data, validate_data v = false
        ∨ vacancyRowOf v = Except.error InsErr.client
        ∨ ∃ row, vacancyRowOf v = Except.ok row
            ∧ hasVacancyId rows row.vacancy_id = true) →
      insertVacanciesLoop E data (rows, false) = (rows, false) := by
  induction data with
  | nil => intro rows _; rfl
  | cons d rest ih =>
    intro rows h
    have hloop : insertVacanciesLoop E (d :: rest) (rows, false)
        = insertVacanciesLoop E rest (insertVacancyStep E (rows, false) d) := rfl
    have hstep : insertVacancyStep E (rows, false) d = (rows, false) := by
      rcases h d (List.mem_cons_self d rest) with h1 | h2 | ⟨row, hrow, hconf⟩
      · exact vacStep_invalid E (rows, false) d h1
      · by_cases hval : validate_data d = false
        · exact vacStep_invalid E (rows, false) d hval
        · have hval2 : validate_data d = true := by simpa using hval
          simp [insertVacancyStep, hval2, h2]
      · by_cases hval : validate_data d = false
        · exact vacStep_invalid E (rows, false) d hval
        · have hval2 : validate_data d = true := by simpa using hval
          simp [insertVacancyStep, hval2, hrow, hconf]
    rw [hloop, hstep]
    exact ih rows (fun v hv => h v (List.mem_cons_of_mem d hv))

theorem vacResult_idem (E : List EmployerRow) (data : List PyDict)
    (rows : List VacancyRow) :
    vacResult E data (vacResult E data rows) = vacResult E data rows := by
  rcases hloop : insertVacanciesLoop E data (rows, false) with ⟨R, b⟩
  have hres : vacResult E data rows = if b then rows else R := by
    unfold vacResult
    rw [hloop]
  cases b with
  | true =>
    have h1 : vacResult E data rows = rows := by simpa using hres
    rw [h1]
    exact h1
  | false =>
    have h1 : vacResult E data rows = R := by simpa using hres
    rw [h1]
    have hb : (insertVacanciesLoop E data (rows, false)).2 = false := by rw [hloop]
    have hsound := vacLoop_sound E data rows hb
    rw [hloop] at hsound
    have hfix := vacLoop_fix E data R (fun v hv => hsound v hv)
    unfold vacResult
    rw [hfix]
    simp

theorem insert_vacancies_idem (data : List PyDict) (db : DB) :
    insert_vacancies data (insert_vacancies data db) = insert_vacancies data db := by
  unfold insert_vacancies
  simp [vacResult_idem]

theorem runPipeline_idem (ed vd : List PyDict) (db : DB) :
    runPipeline ed vd (runPipeline ed vd db) = runPipeline ed vd db := by
  unfold runPipeline insert_vacancies insert_employers
  simp [empResult_idem, vacResult_idem]

/-! ## C1: idempotent ingestion -/

/-- C1: running the storage phase of the pipeline twice over the same fetched
employer and vacancy records leaves exactly the rows of one run, and a single
insert whose unique key (employer_id, respectively vacancy_id) already exists
is a no-op: the table is unchanged, the existing row is not updated, and no
error is raised (the transaction stays unaborted). -/
theorem spec_ingestion_idempotent :
    (∀ (ed vd : List PyDict) (db : DB),
      runPipeline ed vd (runPipeline ed vd db) = runPipeline ed vd db)
    ∧ (∀ (e : PyDict) (row : EmployerRow) (rows : List EmployerRow),
        employerRowOf e = Except.ok row →
        hasEmployerId rows row.employer_id = true →
        insertEmployerStep (rows, false) e = (rows, false))
    ∧ (∀ (v : PyDict) (row : VacancyRow) (rows : List VacancyRow)
        (E : List EmployerRow),
        validate_data v = true →
        vacancyRowOf v = Except.ok row →
        hasVacancyId rows row.vacancy_id = true →
        insertVacancyStep E (rows, false) v = (rows, false)) := by
  refine ⟨runPipeline_idem, ?_, ?_⟩
  · intro e row rows hrow hconf
    simp [insertEmployerStep, hrow, hconf]
  · intro v row rows E hval hrow hconf
    simp [insertVacancyStep, hval, hrow, hconf]

/-- Witness for spec_ingestion_idempotent: re-inserting a concrete employer
and a concrete vacancy whose keys are already stored changes nothing and
raises no error. -/
theorem spec_ingestion_idempotent_witness :
    insertEmployerStep ([⟨5, "Acme", some ""⟩], false)
        [("id", PyVal.pint 5), ("name", PyVal.pstr "Acme")]
      = ([⟨5, "Acme", some ""⟩], false)
    ∧ insertVacancyStep []
        ([⟨9, "Dev", Option.none, Option.none, Option.none, Option.none, some ""⟩], false)
        [("id", PyVal.pint 9), ("name", PyVal.pstr "Dev"), ("employer", PyVal.pdict [])]
      = ([⟨9, "Dev", Option.none, Option.none, Option.none, Option.none, some ""⟩], false) := by
  constructor
  · exact spec_ingestion_idempotent.2.1
      [("id", PyVal.pint 5), ("name", PyVal.pstr "Acme")]
      ⟨5, "Acme", some ""⟩ [⟨5, "Acme", some ""⟩] rfl (by decide)
  · exact spec_ingestion_idempotent.2.2
      [("id", PyVal.pint 9), ("name", PyVal.pstr "Dev"), ("employer", PyVal.pdict [])]
      ⟨9, "Dev", Option.none, Option.none, Option.none, Option.none, some ""⟩
      [⟨9, "Dev", Option.none, Option.none, Option.none, Option.none, some ""⟩]
      [] (by decide) rfl (by decide)

/-! ## C4: invalid vacancies are never persisted -/

theorem vacLoop_append (E : List EmployerRow) (l1 l2 : List PyDict) :
    ∀ st, insertVacanciesLoop E (l1 ++ l2) st
      = insertVacanciesLoop E l2 (insertVacanciesLoop E l1 st) := by
  induction l1 with
  | nil => intro st; rfl
  | cons v rest ih =>
    intro st
    show insertVacanciesLoop E (rest ++ l2) (insertVacancyStep E st v) = _
    exact ih (insertVacancyStep E st v)

/-- C4: a raw vacancy lacking the key "id", "name" or "employer" fails
validation, and the batch with that record stored anywhere in it produces
exactly the same vacancies table as the batch without it: no insert statement
is issued for the record and all remaining records are processed as before. -/
theorem spec_invalid_vacancy_never_persisted (v : PyDict)
    (hmiss : hasKey v "id" = false ∨ hasKey v "name" = false
      ∨ hasKey v "employer" = false) :
    validate_data v = false
    ∧ ∀ (pre post : List PyDict) (db : DB),
        insert_vacancies (pre ++ v :: post) db = insert_vacancies (pre ++ post) db := by
  have hval : validate_data v = false := by
    unfold validate_data
    rcases hmiss with h | h | h <;> simp [h]
  refine ⟨hval, ?_⟩
  intro pre post db
  have h1 : ∀ st, insertVacanciesLoop db.employers (pre ++ v :: post) st
      = insertVacanciesLoop db.employers (pre ++ post) st := by
    intro st
    rw [vacLoop_append, vacLoop_append]
    show insertVacanciesLoop _ post
        (insertVacancyStep _ (insertVacanciesLoop _ pre st) v) = _
    rw [vacStep_invalid _ _ _ hval]
  unfold insert_vacancies vacResult
  rw [h1]

/-- Witness for spec_invalid_vacancy_never_persisted: a vacancy missing "id"
is rejected and inserting the batch holding only it changes nothing. -/
theorem spec_invalid_vacancy_never_persisted_witness :
    validate_data [("name", PyVal.pstr "x"), ("employer", PyVal.pdict [])] = false
    ∧ insert_vacancies [[("name", PyVal.pstr "x"), ("employer", PyVal.pdict [])]]
        ⟨[], []⟩ = insert_vacancies [] ⟨[], []⟩ := by
  have h := spec_invalid_vacancy_never_persisted
    [("name", PyVal.pstr "x"), ("employer", PyVal.pdict [])] (Or.inl (by decide))
  exact ⟨h.1, h.2 [] [] ⟨[], []⟩⟩

/-! ## C9: validation checks key presence only -/

/-- C9: validate_data looks only at the presence of the keys "id", "name" and
"employer", never at their values: any record carrying all three keys passes,
including one whose "id" is None.  For such a record the pipeline goes on to
issue the INSERT: on the concrete record with a None id the statement reaches
the server, violates the NOT NULL constraint on vacancy_id, and aborts the
transaction — it is not dropped by validation. -/
theorem spec_validation_checks_presence_only :
    (∀ v : PyDict, hasKey v "id" = true → hasKey v "name" = true →
      hasKey v "employer" = true → validate_data v = true)
    ∧ validate_data [("id", PyVal.pnone), ("name", PyVal.pstr "x"),
        ("employer", PyVal.pdict [])] = true
    ∧ vacancyRowOf [("id", PyVal.pnone), ("name", PyVal.pstr "x"),
        ("employer", PyVal.pdict [])] = Except.error InsErr.server
    ∧ insertVacancyStep [] ([], false)
        [("id", PyVal.pnone), ("name", PyVal.pstr "x"),
         ("employer", PyVal.pdict [])] = ([], true) := by
  refine ⟨?_, by decide, rfl, by decide⟩
  intro v h1 h2 h3
  simp [validate_data, h1, h2, h3]

/-- Witness for spec_validation_checks_presence_only: a record whose three
required keys are all present with value None still validates. -/
theorem spec_validation_checks_presence_only_witness :
    validate_data [("id", PyVal.pnone), ("name", PyVal.pnone),
      ("employer", PyVal.pnone)] = true :=
  spec_validation_checks_presence_only.1
    [("id", PyVal.pnone), ("name", PyVal.pnone), ("employer", PyVal.pnone)]
    (by decide) (by decide) (by decide)

/-! ## C8: best-effort batch semantics do not survive a server error -/

/-- C8 is a code bug: after a per-record server-side failure the code catches
and logs the exception but never rolls back, so PostgreSQL keeps the
transaction aborted; every remaining INSERT of the batch then fails with
InFailedSqlTransaction and the final commit rolls the whole batch back.
Concretely: a batch [bad, good] whose first record passes validation but has
a None id (NOT NULL violation on vacancy_id, a constraint other than the
expected unique-key conflict) stores nothing at all, although the second
record is valid and, inserted on its own, would be stored. -/
theorem spec_best_effort_batch_violated :
    validate_data [("id", PyVal.pnone), ("name", PyVal.pstr "bad"),
        ("employer", PyVal.pdict [("id", PyVal.pint 5)])] = true
    ∧ insert_vacancies
        [[("id", PyVal.pint 1), ("name", PyVal.pstr "ok"),
          ("employer", PyVal.pdict [("id", PyVal.pint 5)])]]
        ⟨[⟨5, "Acme", some ""⟩], []⟩
      = ⟨[⟨5, "Acme", some ""⟩],
         [⟨1, "ok", Option.none, Option.none, Option.none, some 5, some ""⟩]⟩
    ∧ insert_vacancies
        [[("id", PyVal.pnone), ("name", PyVal.pstr "bad"),
          ("employer", PyVal.pdict [("id", PyVal.pint 5)])],
         [("id", PyVal.pint 1), ("name", PyVal.pstr "ok"),
          ("employer", PyVal.pdict [("id", PyVal.pint 5)])]]
        ⟨[⟨5, "Acme", some ""⟩], []⟩
      = ⟨[⟨5, "Acme", some ""⟩], []⟩ := by
  refine ⟨by decide, by decide, by decide⟩

/-! ## C5: a malformed salary object does not reject the record -/

theorem exbind_ok {α β : Type} (a : α) (f : α → Except InsErr β) :
    (Except.ok a >>= f) = f a := rfl

theorem exbind_error {α β : Type} (e : InsErr) (f : α → Except InsErr β) :
    ((Except.error e : Except InsErr α) >>= f) = Except.error e := rfl

theorem requireNotNull_some {α : Type} (a : α) :
    requireNotNull (some a) = Except.ok a := rfl

theorem requireNotNull_none {α : Type} :
    requireNotNull (Option.none : Option α) = Except.error InsErr.server := rfl

/-- Inserting one validated, conflict-free, foreign-key-satisfying vacancy
record appends exactly its row. -/
theorem insert_vacancies_single (v : PyDict) (row : VacancyRow) (db : DB)
    (hval : validate_data v = true) (hrow : vacancyRowOf v = Except.ok row)
    (hfresh : hasVacancyId db.vacancies row.vacancy_id = false)
    (hfk : row.employer_id = Option.none
      ∨ ∃ e, row.employer_id = some e ∧ hasEmployerId db.employers e = true) :
    insert_vacancies [v] db = { db with vacancies := db.vacancies ++ [row] } := by
  have hstep : insertVacancyStep db.employers (db.vacancies, false) v
      = (db.vacancies ++ [row], false) := by
    rcases hfk with h | ⟨e, he, hfk2⟩
    · simp [insertVacancyStep, hval, hrow, hfresh, h]
    · simp [insertVacancyStep, hval, hrow, hfresh, he, hfk2]
  have hloop : insertVacanciesLoop db.employers [v] (db.vacancies, false)
      = (db.vacancies ++ [row], false) := by
    show insertVacanciesLoop db.employers []
        (insertVacancyStep db.employers (db.vacancies, false) v) = _
    rw [hstep]
    rfl
  unfold insert_vacancies vacResult
  rw [hloop]
  simp

/-- C5: a vacancy record that passes validation and whose "salary" key is
present with a non-dict value is treated as carrying no salary information:
whenever its insert succeeds, the stored row has salary_from, salary_to and
currency all NULL — and with a fresh vacancy_id and a satisfiable employer
reference the record is indeed persisted, not rejected. -/
theorem spec_malformed_salary_persisted_null (v : PyDict) (s : PyVal)
    (row : VacancyRow) (db : DB)
    (hval : validate_data v = true)
    (hsal : findVal v "salary" = some s)
    (hnd : isDict s = false)
    (hrow : vacancyRowOf v = Except.ok row) :
    row.salary_from = Option.none ∧ row.salary_to = Option.none
    ∧ row.currency = Option.none
    ∧ (hasVacancyId db.vacancies row.vacancy_id = false →
        (row.employer_id = Option.none
          ∨ ∃ e, row.employer_id = some e ∧ hasEmployerId db.employers e = true) →
        insert_vacancies [v] db = { db with vacancies := db.vacancies ++ [row] }) := by
  have hrow0 := hrow
  have hs0 : getD v "salary" (PyVal.pdict []) = s := by
    unfold getD
    rw [hsal]
  have hA2 : effectiveSalary v = [] := by
    unfold effectiveSalary
    rw [hs0]
    cases s with
    | pdict fields => simp [isDict] at hnd
    | pnone => rfl
    | pint n => rfl
    | pstr t => rfl
    | plist l => rfl
  have se1 : getD ([] : PyDict) "from" PyVal.pnone = PyVal.pnone := rfl
  have se2 : getD ([] : PyDict) "to" PyVal.pnone = PyVal.pnone := rfl
  have se3 : getD ([] : PyDict) "currency" PyVal.pnone = PyVal.pnone := rfl
  have ci0 : coerceInt PyVal.pnone = Except.ok Option.none := rfl
  have cv0 : coerceVarchar PyVal.pnone = Except.ok Option.none := rfl
  have ad0 : adaptOk PyVal.pnone = true := rfl
  simp only [vacancyRowOf, hA2, se1, se2, se3, ci0, cv0, ad0, Bool.and_true,
    exbind_ok, exbind_error] at hrow
  cases hemp : getD v "employer" (PyVal.pdict []) with
  | pnone => rw [hemp] at hrow; simp at hrow
  | pint n => rw [hemp] at hrow; simp at hrow
  | pstr t => rw [hemp] at hrow; simp at hrow
  | plist l => rw [hemp] at hrow; simp at hrow
  | pdict emp =>
    rw [hemp] at hrow
    simp only [] at hrow
    split at hrow
    · rcases h1 : coerceInt (getD v "id" PyVal.pnone) with e1 | oi
      · rw [h1] at hrow; simp [exbind_error] at hrow
      · rw [h1] at hrow
        simp only [exbind_ok] at hrow
        rcases oi with _ | i
        · simp [requireNotNull_none, exbind_error] at hrow
        · simp only [requireNotNull_some, exbind_ok] at hrow
          rcases h2 : coerceVarchar (getD v "name" (PyVal.pstr "")) with e2 | ot
          · rw [h2] at hrow; simp [exbind_error] at hrow
          · rw [h2] at hrow
            simp only [exbind_ok] at hrow
            rcases ot with _ | t
            · simp [requireNotNull_none, exbind_error] at hrow
            · simp only [requireNotNull_some, exbind_ok, ci0, cv0] at hrow
              rcases h3 : coerceInt (getD emp "id" PyVal.pnone) with e3 | eidv
              · rw [h3] at hrow; simp [exbind_error] at hrow
              · rw [h3] at hrow
                simp only [exbind_ok] at hrow
                rcases h4 : coerceVarchar (getD v "alternate_url" (PyVal.pstr ""))
                    with e4 | urlv
                · rw [h4] at hrow; simp [exbind_error] at hrow
                · rw [h4] at hrow
                  simp only [exbind_ok, Except.ok.injEq] at hrow
                  subst hrow
                  refine ⟨rfl, rfl, rfl, ?_⟩
                  intro hfresh hfk
                  exact insert_vacancies_single v _ db hval hrow0 hfresh hfk
    · simp at hrow

/-- Witness for spec_malformed_salary_persisted_null: a vacancy whose salary
is the string "none" is stored with NULL salary bounds and NULL currency. -/
theorem spec_malformed_salary_persisted_null_witness :
    (insert_vacancies
      [[("id", PyVal.pint 3), ("name", PyVal.pstr "QA"),
        ("employer", PyVal.pdict []), ("salary", PyVal.pstr "none")]]
      ⟨[], []⟩).vacancies
    = [⟨3, "QA", Option.none, Option.none, Option.none, Option.none, some ""⟩] := by
  have h := spec_malformed_salary_persisted_null
    [("id", PyVal.pint 3), ("name", PyVal.pstr "QA"),
     ("employer", PyVal.pdict []), ("salary", PyVal.pstr "none")]
    (PyVal.pstr "none")
    ⟨3, "QA", Option.none, Option.none, Option.none, Option.none, some ""⟩
    ⟨[], []⟩ (by decide) rfl rfl rfl
  rw [h.2.2.2 (by decide) (Or.inl rfl)]
  rfl

/-! ## C6, C7: salary aggregate queries -/

theorem midpoints_eq_midsSpec (vs : List VacancyRow) : midpoints vs = midsSpec vs := by
  induction vs with
  | nil => rfl
  | cons v rest ih =>
    unfold midpoints midsSpec at *
    cases hf : v.salary_from with
    | none =>
      simp [List.filterMap_cons, List.filter_cons, bothBounds, hf, ih]
    | some f =>
      cases ht : v.salary_to with
      | none =>
        simp [List.filterMap_cons, List.filter_cons, bothBounds, hf, ht, ih]
      | some t =>
        simp [List.filterMap_cons, List.filter_cons, bothBounds, midOfRow, hf, ht, ih]

/-- C6 counterexample: on a store whose only vacancy lacks a salary_from
bound (so no vacancy has both bounds present), averageSalary returns a
single-row result containing NULL — not an empty result set as the claim
states.  SELECT with an aggregate and no GROUP BY always yields one row. -/
theorem spec_avg_salary_empty_counterexample :
    DBManager.get_avg_salary
      [⟨1, "a", Option.none, some 100, Option.none, Option.none, Option.none⟩]
      = [Option.none]
    ∧ DBManager.get_avg_salary
      [⟨1, "a", Option.none, some 100, Option.none, Option.none, Option.none⟩]
      ≠ ([] : List (Option Int)) := by
  have h1 : DBManager.get_avg_salary
      [⟨1, "a", Option.none, some 100, Option.none, Option.none, Option.none⟩]
      = [Option.none] := rfl
  refine ⟨h1, ?_⟩
  rw [h1]
  simp

/-- C6 amended: averageSalary returns the average of (salary_from +
salary_to) / 2 over exactly the vacancies with both bounds present, rounded
to the nearest whole unit (225 on the bound pairs (100, 200) and (300, 300)),
and returns a single row containing a NULL value — not an empty result set —
when no vacancy has both bounds present. -/
theorem spec_avg_salary_amended (vs : List VacancyRow) :
    (midsSpec vs = [] → DBManager.get_avg_salary vs = [Option.none])
    ∧ (midsSpec vs ≠ [] →
        DBManager.get_avg_salary vs =
          [some (pgRound (((midsSpec vs).sum : ℚ) / ((midsSpec vs).length : ℚ)))])
    ∧ DBManager.get_avg_salary
        [⟨1, "a", some 100, some 200, Option.none, Option.none, Option.none⟩,
         ⟨2, "b", some 300, some 300, Option.none, Option.none, Option.none⟩]
      = [some 225] := by
  refine ⟨?_, ?_, ?_⟩
  · intro h
    unfold DBManager.get_avg_salary
    rw [midpoints_eq_midsSpec, h]
    rfl
  · intro h
    unfold DBManager.get_avg_salary
    rw [midpoints_eq_midsSpec]
    simp [List.isEmpty_iff, h]
  · have hms : midpoints
        [⟨1, "a", some 100, some 200, Option.none, Option.none, Option.none⟩,
         ⟨2, "b", some 300, some 300, Option.none, Option.none, Option.none⟩]
        = [150, 300] := by decide
    unfold DBManager.get_avg_salary
    rw [hms]
    have h225 : ((([150, 300] : List ℤ).sum : ℚ) / (([150, 300] : List ℤ).length : ℚ))
        = 225 := by
      norm_num [List.sum_cons, List.sum_nil]
    rw [if_neg (by decide), h225]
    norm_num [pgRound]

/-- Witness for spec_avg_salary_amended: with no qualifying vacancy the query
returns the single NULL row. -/
theorem spec_avg_salary_amended_witness :
    DBManager.get_avg_salary
      [⟨7, "x", some 50, Option.none, Option.none, Option.none, Option.none⟩]
      = [Option.none] :=
  (spec_avg_salary_amended
    [⟨7, "x", some 50, Option.none, Option.none, Option.none, Option.none⟩]).1
    (by decide)

theorem filterMap_higher_eq (avg : ℚ) (vs : List VacancyRow) :
    vs.filterMap (fun v =>
      match v.salary_from, v.salary_to with
      | some f, some t =>
        if (sqlMidpoint f t : ℚ) > avg then some (v.title, sqlMidpoint f t)
        else Option.none
      | _, _ => Option.none)
    = (vs.filter (fun v => bothBounds v && decide ((midOfRow v : ℚ) > avg))).map
        (fun v => (v.title, midOfRow v)) := by
  induction vs with
  | nil => rfl
  | cons v rest ih =>
    cases hf : v.salary_from with
    | none =>
      simp [List.filterMap_cons, List.filter_cons, bothBounds, hf, ih]
    | some f =>
      cases ht : v.salary_to with
      | none =>
        simp [List.filterMap_cons, List.filter_cons, bothBounds, hf, ht, ih]
      | some t =>
        by_cases hc : (sqlMidpoint f t : ℚ) > avg
        · simp [List.filterMap_cons, List.filter_cons, bothBounds, midOfRow,
            hf, ht, hc, ih]
        · simp [List.filterMap_cons, List.filter_cons, bothBounds, midOfRow,
            hf, ht, hc, ih]

/-- C7: the above-average query returns exactly the vacancies with both
salary bounds present whose midpoint strictly exceeds the average midpoint
over the rows with both bounds present (the subquery's NULL-ignoring AVG
ranges over exactly those rows), pairing each with its midpoint.  On rows
with midpoints 100, 225 and 400 only the midpoint-400 vacancy is returned,
and on rows with midpoints 100, 200 and 300 (average 200) the vacancy whose
midpoint equals the average is excluded: strict greater-than. -/
theorem spec_above_average_strict :
    (∀ vs, DBManager.get_vacancies_with_higher_salary vs = higherSalarySpec vs)
    ∧ DBManager.get_vacancies_with_higher_salary
        [⟨1, "A", some 100, some 100, Option.none, Option.none, Option.none⟩,
         ⟨2, "B", some 225, some 225, Option.none, Option.none, Option.none⟩,
         ⟨3, "C", some 400, some 400, Option.none, Option.none, Option.none⟩]
      = [("C", 400)]
    ∧ DBManager.get_vacancies_with_higher_salary
        [⟨1, "A", some 100, some 100, Option.none, Option.none, Option.none⟩,
         ⟨2, "B", some 200, some 200, Option.none, Option.none, Option.none⟩,
         ⟨3, "C", some 300, some 300, Option.none, Option.none, Option.none⟩]
      = [("C", 300)] := by
  refine ⟨?_, ?_, ?_⟩
  · intro vs
    by_cases h : midsSpec vs = []
    · have hfil : vs.filter bothBounds = [] := by
        unfold midsSpec at h
        exact List.map_eq_nil_iff.mp h
      have hc : DBManager.get_vacancies_with_higher_salary vs = [] := by
        unfold DBManager.get_vacancies_with_higher_salary
        rw [midpoints_eq_midsSpec, h]
        rfl
      have hs : higherSalarySpec vs = [] := by
        have h2 : vs.filter
            (fun v => bothBounds v && decide ((midOfRow v : ℚ) >
              (((midsSpec vs).sum : ℚ) / ((midsSpec vs).length : ℚ)))) = [] := by
          rw [List.filter_eq_nil_iff]
          intro a ha hp
          have hb : bothBounds a = true := (Bool.and_eq_true _ _).mp hp |>.1
          exact (List.filter_eq_nil_iff.mp hfil a ha) hb
        show (vs.filter
            (fun v => bothBounds v && decide ((midOfRow v : ℚ) >
              (((midsSpec vs).sum : ℚ) / ((midsSpec vs).length : ℚ))))).map
            (fun v => (v.title, midOfRow v)) = []
        rw [h2]
        rfl
      rw [hc, hs]
    · have hne : (midsSpec vs).isEmpty = false := by
        simp [List.isEmpty_iff, h]
      simp only [DBManager.get_vacancies_with_higher_salary, higherSalarySpec,
        midpoints_eq_midsSpec, hne, Bool.false_eq_true, if_false]
      exact filterMap_higher_eq _ vs
  · have hms : midpoints
        [⟨1, "A", some 100, some 100, Option.none, Option.none, Option.none⟩,
         ⟨2, "B", some 225, some 225, Option.none, Option.none, Option.none⟩,
         ⟨3, "C", some 400, some 400, Option.none, Option.none, Option.none⟩]
        = [100, 225, 400] := by decide
    have m1 : sqlMidpoint 100 100 = 100 := by decide
    have m2 : sqlMidpoint 225 225 = 225 := by decide
    have m3 : sqlMidpoint 400 400 = 400 := by decide
    unfold DBManager.get_vacancies_with_higher_salary
    rw [hms, if_neg (by decide)]
    norm_num [List.filterMap_cons, List.sum_cons, List.sum_nil, m1, m2, m3]
  · have hms : midpoints
        [⟨1, "A", some 100, some 100, Option.none, Option.none, Option.none⟩,
         ⟨2, "B", some 200, some 200, Option.none, Option.none, Option.none⟩,
         ⟨3, "C", some 300, some 300, Option.none, Option.none, Option.none⟩]
        = [100, 200, 300] := by decide
    have m1 : sqlMidpoint 100 100 = 100 := by decide
    have m2 : sqlMidpoint 200 200 = 200 := by decide
    have m3 : sqlMidpoint 300 300 = 300 := by decide
    unfold DBManager.get_vacancies_with_higher_salary
    rw [hms, if_neg (by decide)]
    norm_num [List.filterMap_cons, List.sum_cons, List.sum_nil, m1, m2, m3]

/-! ## C10: the empty keyword matches every row -/

theorem likeMatch_one_percent : ∀ s, likeMatch ['%'] s = true := by
  intro s
  induction s with
  | nil => simp [likeMatch]
  | cons c rest ih => simp [likeMatch, ih]

theorem likeMatch_two_percent (s : List Char) : likeMatch ['%', '%'] s = true := by
  cases s with
  | nil => simp [likeMatch, likeMatch_one_percent]
  | cons c rest => simp [likeMatch, likeMatch_one_percent]

/-- C10: searching with the empty keyword degenerates the LIKE pattern to
"%%", which matches every title, so the query returns the (title,
employer_id, url) triple of every stored vacancy row in order. -/
theorem spec_empty_keyword_matches_all (vs : List VacancyRow) :
    DBManager.get_vacancies_with_keyword vs ""
      = vs.map (fun v => (v.title, v.employer_id, v.url)) := by
  have hcond : ∀ x : List Char,
      likeMatch (['%'] ++ "".toList.map Char.toLower ++ ['%']) x = true := by
    intro x
    have hpat : (['%'] ++ "".toList.map Char.toLower ++ ['%']) = ['%', '%'] := rfl
    rw [hpat]
    exact likeMatch_two_percent x
  unfold DBManager.get_vacancies_with_keyword
  simp only [hcond, if_true]
  induction vs with
  | nil => rfl
  | cons v rest ih => simp [List.filterMap_cons, ih]
